import Mathlib

/-!
Verification development for the college-event tracker (src/app.py).

Shallow embedding conventions:
  - An event is the typed view of the flat JSON record with string fields
    title, description, date, venue, url (the five fields written by
    add_event and edit_event).
  - Calendar dates are modelled by their proleptic Gregorian ordinal
    (days since 0001-01-01 = 1, as Python date.toordinal); Python date
    comparison and date + timedelta(days = n) correspond to Nat
    comparison and + n on ordinals.
  - The persisted file is modelled at the parsed-JSON level:
    none              = file absent,
    some none         = file present but json.load raises JSONDecodeError,
    some (some recs)  = file parses to the list recs of records;
    a record is the ordered key/value list of a JSON object.
  - The sklearn TF-IDF pipeline is external to the repository; the
    recommender is embedded from the cosine_sim vector onward, taking the
    per-event similarity scores as an explicit rational-valued list.
-/

/-- The typed view of one event record: the five string fields that
add_event and edit_event read and write. -/
structure Event where
  title : String
  description : String
  date : String
  venue : String
  url : String
deriving DecidableEq

instance : Inhabited Event := ⟨⟨"", "", "", "", ""⟩⟩

/-! ### Date model (datetime.strptime with format %Y-%m-%d, date.toordinal) -/

structure Date where
  year : Nat
  month : Nat
  day : Nat
deriving DecidableEq

def isLeap (y : Nat) : Bool :=
  (y % 4 == 0 && y % 100 != 0) || y % 400 == 0

def daysInMonth (y m : Nat) : Nat :=
  if m = 2 then (if isLeap y then 29 else 28)
  else if m = 4 ∨ m = 6 ∨ m = 9 ∨ m = 11 then 30
  else 31

def natOfDigits (l : List Char) : Nat :=
  l.foldl (fun a c => a * 10 + (c.toNat - 48)) 0

/-- Splits a character list at each literal dash, keeping empty pieces,
mirroring how the %Y-%m-%d pattern separates the three numeric fields. -/
def splitDash : List Char → List Char → List (List Char)
  | [], cur => [cur.reverse]
  | c :: rest, cur =>
    if c = '-' then cur.reverse :: splitDash rest [] else splitDash rest (c :: cur)

/-- Model of datetime.strptime(s, "%Y-%m-%d").date(): exactly four digits of
year (at least year 1), one or two digits of month in 1..12, one or two
digits of day valid for that month, the three fields separated by dashes
with no surrounding text; any other input raises ValueError, modelled as
none. -/
def parse_date (s : String) : Option Date :=
  match splitDash s.data [] with
  | [ys, ms, ds] =>
    if ys.length = 4 ∧ ys.all Char.isDigit ∧
       1 ≤ ms.length ∧ ms.length ≤ 2 ∧ ms.all Char.isDigit ∧
       1 ≤ ds.length ∧ ds.length ≤ 2 ∧ ds.all Char.isDigit then
      let y := natOfDigits ys
      let m := natOfDigits ms
      let d := natOfDigits ds
      if 1 ≤ y ∧ 1 ≤ m ∧ m ≤ 12 ∧ 1 ≤ d ∧ d ≤ daysInMonth y m then
        some ⟨y, m, d⟩
      else none
    else none
  | _ => none

def daysBeforeMonth (y m : Nat) : Nat :=
  [0, 31, 59, 90, 120, 151, 181, 212, 243, 273, 304, 334].getD (m - 1) 0 +
    (if 2 < m ∧ isLeap y then 1 else 0)

/-- Python date.toordinal: day number in the proleptic Gregorian calendar,
with 0001-01-01 mapped to 1. -/
def Date.toOrd (d : Date) : Nat :=
  365 * (d.year - 1) + (d.year - 1) / 4 - (d.year - 1) / 100 + (d.year - 1) / 400 +
    daysBeforeMonth d.year d.month + d.day

/-! ### format_date -/

def monthName (m : Nat) : String :=
  ["January", "February", "March", "April", "May", "June", "July",
   "August", "September", "October", "November", "December"].getD (m - 1) ""

/-- Two-digit zero-padded day, as strftime %d renders it. -/
def pad2 (n : Nat) : String :=
  if n < 10 then "0" ++ toString n else toString n

/-- strftime("%B %d, %Y"): full month name, zero-padded day, year (the year
rendered without padding, as the Linux C library does for %Y). -/
def longDateForm (d : Date) : String :=
  monthName d.month ++ " " ++ pad2 d.day ++ ", " ++ toString d.year

/-- format_date from src/app.py lines 18-24: try to parse the string as
%Y-%m-%d and render it long-form; on ValueError return the input as is. -/
def format_date (s : String) : String :=
  match parse_date s with
  | some d => longDateForm d
  | none => s

/-! ### Persistence: load_events / save_events -/

/-- One persisted JSON object, as its ordered key/value field list. -/
abbrev EventRecord := List (String × String)

/-- load_events from src/app.py lines 28-36: if the file exists, json.load
it, recovering from JSONDecodeError with an empty list; if the file is
absent, an empty list.  The parsed records are returned untouched. -/
def load_events : Option (Option (List EventRecord)) → List EventRecord
  | none => []
  | some none => []
  | some (some recs) => recs

/-- Dictionary field access with default, as record.get(key, ""). -/
def getField (k : String) : EventRecord → String
  | [] => ""
  | (k2, v) :: rest => if k2 = k then v else getField k rest

/-- Serialization of one event: json.dump writes the dict fields in their
insertion order, which is the order add_event builds them in. -/
def encodeEvent (e : Event) : EventRecord :=
  [("title", e.title), ("description", e.description), ("date", e.date),
   ("venue", e.venue), ("url", e.url)]

/-- The typed view of one parsed record: each field read back by key,
independent of the order the keys appear in. -/
def decodeEvent (r : EventRecord) : Event :=
  ⟨getField "title" r, getField "description" r, getField "date" r,
   getField "venue" r, getField "url" r⟩

/-- save_events from src/app.py lines 38-41: the file content written by
json.dump of the event list. -/
def save_events (l : List Event) : List EventRecord :=
  l.map encodeEvent

/-! ### Keyword assistant (get_chatbot_response, src/app.py lines 60-73) -/

def startsWithChars : List Char → List Char → Bool
  | _, [] => true
  | [], _ :: _ => false
  | c :: cs, p :: ps => c = p && startsWithChars cs ps

def containsChars : List Char → List Char → Bool
  | [], pat => pat.isEmpty
  | l@(_ :: rest), pat => startsWithChars l pat || containsChars rest pat

/-- Python substring membership: pat in s. -/
def strContains (s pat : String) : Bool :=
  containsChars s.data pat.data

/-- Python str.lower(), character by character (the messages and names
involved are ASCII, where Char.toLower agrees with Python). -/
def strToLower (s : String) : String :=
  ⟨s.data.map Char.toLower⟩

def adminResponse : String :=
  "The admin username is \x27admin\x27 and the password is \x27password123\x27."

def upcomingResponse : String :=
  "The homepage automatically filters events for the next 7 days in the \x27Upcoming Events\x27 section."

def recResponse : String :=
  "To get personalized recommendations, please use the search bar at the top! I use AI (TF-IDF) for matching."

def greetResponse : String :=
  "Hello! I\x27m your College Event Assistant. How can I help you find an event?"

def fallbackResponse : String :=
  "I\x27m an AI assistant. I can help with event search, admin access, or the 7-day filter."

/-- get_chatbot_response from src/app.py lines 60-73: lower-case the
message, then the if/elif chain of substring tests in source order. -/
def get_chatbot_response (message : String) : String :=
  let m := strToLower message
  if strContains m "admin" || strContains m "login" || strContains m "credentials" then
    adminResponse
  else if strContains m "upcoming" || strContains m "next 7 days" || strContains m "filter" then
    upcomingResponse
  else if strContains m "recommendation" || strContains m "search" || strContains m "event" || strContains m "interested" then
    recResponse
  else if strContains m "hello" || strContains m "hi" || strContains m "hey" then
    greetResponse
  else
    fallbackResponse

/-- The keyword table as the spec presents it: a fixed, priority-ordered
list of keyword groups, each with its canned response. -/
def chatGroups : List (List String × String) :=
  [(["admin", "login", "credentials"], adminResponse),
   (["upcoming", "next 7 days", "filter"], upcomingResponse),
   (["recommendation", "search", "event", "interested"], recResponse),
   (["hello", "hi", "hey"], greetResponse)]

/-- The assistant as the spec words it: lower-case the input, take the
first group with any matching keyword substring, else the fallback. -/
def respondSpec (message : String) : String :=
  let m := strToLower message
  match chatGroups.find? (fun g => g.1.any (fun k => strContains m k)) with
  | some g => g.2
  | none => fallbackResponse

/-! ### Similarity recommender (recommend_events_simple, src/app.py 77-102)

The TF-IDF vectorizer and cosine_similarity come from sklearn, outside
this repository; the function is embedded from the cosine_sim vector
onward, with sim the list of per-event similarity scores.

numpy documents .argsort() (default kind, introsort) to return a
permutation of 0..n-1 along which the values are weakly ascending; it
does NOT promise a tie order in general (the sort is unstable above the
small-partition cutoff of its introsort, below which it runs plain
insertion sort and is stable in practice).  The embedding therefore has
two layers: recommend_with_order abstracts the argsort output as an
explicit index order, constrained in the theorems by exactly the
documented guarantee (ascending permutation), while argsortDesc is the
concrete insertion-sort instance of that output, valid for the
few-element lists evaluated in the counterexample and witness, which sit
squarely in the insertion-sort regime. -/

def simKey (sim : List ℚ) (i : Nat) : ℚ := sim.getD i 0

/-- The ascending order insertion-sort argsort uses on small arrays:
smaller score first, equal scores by smaller index first. -/
def ascLe (sim : List ℚ) (i j : Nat) : Prop :=
  simKey sim i < simKey sim j ∨ (simKey sim i = simKey sim j ∧ i ≤ j)

instance (sim : List ℚ) : DecidableRel (ascLe sim) := fun i j => by
  unfold ascLe; infer_instance

/-- cosine_sim.argsort()[::-1] in the small-array regime (n at most
numpy's introsort cutoff, where the sort is plain insertion sort): the
indices 0..n-1 sorted ascending by score (ties by index), reversed. -/
def argsortDesc (sim : List ℚ) (n : Nat) : List Nat :=
  (List.insertionSort (ascLe sim) (List.range n)).reverse

/-- The collection loop of recommend_events_simple: walk the ranked
indices, appending events with positive score while fewer than top_n are
collected, and breaking as soon as top_n are collected. -/
def selectLoop (events : List Event) (sim : List ℚ) (topn : Nat) :
    List Nat → List Event → List Event
  | [], acc => acc
  | i :: rest, acc =>
    if 0 < sim.getD i 0 ∧ acc.length < topn then
      selectLoop events sim topn rest (acc ++ [events.getD i default])
    else if topn ≤ acc.length then acc
    else selectLoop events sim topn rest acc

/-- recommend_events_simple from src/app.py lines 77-102, with sim the
cosine-similarity score of each event against the transformed query (the
get_ai_components step returns None on an empty event list, giving []). -/
def recommend_events_simple (events : List Event) (sim : List ℚ) (topn : Nat) :
    List Event :=
  if events.isEmpty then []
  else selectLoop events sim topn (argsortDesc sim events.length) []

/-- recommend_events_simple with the argsort output abstracted: ascOrder
stands for whatever index list cosine_sim.argsort() returned (the
theorems constrain it only by the documented guarantee — a permutation
of 0..n-1 with weakly ascending scores, no tie order promised); the
[::-1] reversal and the collection loop are as in the source. -/
def recommend_with_order (events : List Event) (sim : List ℚ) (topn : Nat)
    (ascOrder : List Nat) : List Event :=
  if events.isEmpty then []
  else selectLoop events sim topn ascOrder.reverse []

/-! ### Upcoming-window filter (home, src/app.py lines 119-141) -/

/-- The loop body condition: the event date parses and lies in the
inclusive window [today, today + w] (ordinals). -/
def eventInWindow (today w : Nat) (e : Event) : Bool :=
  match parse_date e.date with
  | some d => decide (today ≤ d.toOrd) && decide (d.toOrd ≤ today + w)
  | none => false

/-- The filtering loop of home: per event, try to parse its date; keep it
when today <= date <= cutoff; on ValueError skip it and continue.  The
route instantiates the cutoff as today + 7; the loop itself only depends
on the two bounds. -/
def filterUpcoming : List Event → Nat → Nat → List Event
  | [], _, _ => []
  | e :: rest, today, w =>
    match parse_date e.date with
    | some d =>
      if today ≤ d.toOrd ∧ d.toOrd ≤ today + w then
        e :: filterUpcoming rest today w
      else filterUpcoming rest today w
    | none => filterUpcoming rest today w

/-- The upcoming-events list the home route renders (windowDays = 7). -/
def home_upcoming (events : List Event) (today : Nat) : List Event :=
  filterUpcoming events today 7

/-! ### Admin CRUD (add_event, edit_event, delete_event) -/

inductive AddOutcome where
  | added
  | missingFields
deriving DecidableEq

/-- add_event from src/app.py lines 198-220: reject when any of the five
required form fields is empty, otherwise append the new event dict to the
list and save.  There is no duplicate check of any kind. -/
def add_event (t d dt v u : String) (store : List Event) :
    List Event × AddOutcome :=
  if t = "" ∨ d = "" ∨ dt = "" ∨ v = "" ∨ u = "" then
    (store, AddOutcome.missingFields)
  else
    (store ++ [⟨t, d, dt, v, u⟩], AddOutcome.added)

inductive EditOutcome where
  | ok
  | notFound
deriving DecidableEq

/-- edit_event from src/app.py lines 222-259 (POST path): bounds-check the
index, flash not-found when out of range, otherwise overwrite each of the
five fields of the event at that index and save. -/
def edit_event (index : Nat) (t d dt v u : String) (store : List Event) :
    List Event × EditOutcome :=
  if h : index < store.length then
    let e := store.get ⟨index, h⟩
    (store.set index { e with title := t, description := d, date := dt, venue := v, url := u },
     EditOutcome.ok)
  else (store, EditOutcome.notFound)

inductive DeleteOutcome where
  | deleted
  | notFound
deriving DecidableEq

/-- delete_event from src/app.py lines 261-274: when 0 <= index < len,
del the entry and save; otherwise flash not-found and change nothing. -/
def delete_event (index : Nat) (store : List Event) :
    List Event × DeleteOutcome :=
  if index < store.length then
    (store.eraseIdx index, DeleteOutcome.deleted)
  else (store, DeleteOutcome.notFound)

/-- Sample events used by concrete witnesses and counterexamples. -/
def evAW : Event :=
  ⟨"AI Workshop", "Hands-on machine learning", "2025-01-10", "Tech Hall", "aw"⟩

def evAF : Event :=
  ⟨"Art Fair", "Student art exhibition", "2025-01-12", "Arts Center", "af"⟩

def evMX : Event :=
  ⟨"Music Night", "Live bands", "2025-01-20", "Auditorium", "mx"⟩

/-- A persisted record whose date field does not parse as %Y-%m-%d. -/
def badRec : EventRecord :=
  [("title", "Mystery Meetup"), ("description", "TBA"), ("date", "not-a-date"),
   ("venue", "Quad"), ("url", "mm")]

/-- C6: load never raises: for every file state it returns a list, and an
absent file or a file whose contents fail to parse as JSON yields the
empty store. -/
theorem load_events_never_fails (fs : Option (Option (List EventRecord))) :
    load_events fs = [] ∨
      ∃ recs, fs = some (some recs) ∧ load_events fs = recs := by
  match fs with
  | none => exact Or.inl rfl
  | some none => exact Or.inl rfl
  | some (some recs) => exact Or.inr ⟨recs, rfl, rfl⟩

/-- C5 counterexample: loading a record whose date field does not parse
keeps the record verbatim; its date field is still the unparseable string
afterwards, whereas a fallback to the current date would leave a parseable
value.  No substitution of today happens. -/
theorem load_events_no_fallback_cex :
    load_events (some (some [badRec])) = [badRec] ∧
    getField "date" ((load_events (some (some [badRec]))).getD 0 []) = "not-a-date" ∧
    parse_date (getField "date" ((load_events (some (some [badRec]))).getD 0 [])) = none :=
  ⟨rfl, by decide, by decide⟩

/-- C5 (amended): a record whose date value fails to parse is neither
dropped nor aborts the load — the whole record list, date fields
included, is returned exactly as parsed, with no fallback to today. -/
theorem load_events_keeps_records (recs : List EventRecord) :
    load_events (some (some recs)) = recs ∧
    (load_events (some (some recs))).map (getField "date") =
      recs.map (getField "date") :=
  ⟨rfl, rfl⟩

/-- C10: format_date is total on strings: a string parsing as %Y-%m-%d is
rendered as full month name, zero-padded two-digit day and year; any
other string is returned unchanged instead of raising. -/
theorem format_date_spec (s : String) (d : Date) :
    (parse_date s = some d → format_date s = longDateForm d) ∧
    (parse_date s = none → format_date s = s) := by
  constructor
  · intro h; simp [format_date, h]
  · intro h; simp [format_date, h]

/-- Witness for format_date_spec at a parseable and an unparseable
input. -/
theorem format_date_spec_witness :
    format_date "2025-01-05" = longDateForm ⟨2025, 1, 5⟩ ∧
    longDateForm ⟨2025, 1, 5⟩ = "January 05, 2025" ∧
    format_date "Jan 5, 2025" = "Jan 5, 2025" :=
  ⟨(format_date_spec "2025-01-05" ⟨2025, 1, 5⟩).1 (by decide), by decide,
   (format_date_spec "Jan 5, 2025" ⟨1, 1, 1⟩).2 (by decide)⟩

/-- C4: delete with a valid positional index removes exactly one event
(the length drops by one); delete with an out-of-range index returns the
not-found signal and leaves the store unchanged. -/
theorem delete_event_spec (store : List Event) (index : Nat) :
    (index < store.length →
       delete_event index store = (store.eraseIdx index, DeleteOutcome.deleted) ∧
       (delete_event index store).1.length + 1 = store.length) ∧
    (store.length ≤ index →
       delete_event index store = (store, DeleteOutcome.notFound)) := by
  constructor
  · intro h
    refine ⟨by simp [delete_event, h], ?_⟩
    simp only [delete_event, if_pos h]
    have := List.length_eraseIdx (l := store) (i := index)
    simp [h] at this
    omega
  · intro h
    have hnot : ¬ index < store.length := by omega
    simp [delete_event, hnot]

/-- Witness for delete_event_spec at a valid and an out-of-range index. -/
theorem delete_event_spec_witness :
    delete_event 1 [evAW, evAF, evMX] = ([evAW, evMX], DeleteOutcome.deleted) ∧
    (delete_event 1 [evAW, evAF, evMX]).1.length + 1 = 3 ∧
    delete_event 7 [evAW, evAF, evMX] = ([evAW, evAF, evMX], DeleteOutcome.notFound) :=
  ⟨((delete_event_spec [evAW, evAF, evMX] 1).1 (by decide)).1.trans (by decide),
   ((delete_event_spec [evAW, evAF, evMX] 1).1 (by decide)).2,
   (delete_event_spec [evAW, evAF, evMX] 7).2 (by decide)⟩

/-- C3 counterexample: the store holds the single event evAW named
"AI Workshop"; adding a second event whose name is the case-varied
duplicate "ai workshop" appends it — the event count changes from 1 to 2,
so duplicate insertion is not a no-op. -/
theorem add_event_duplicate_cex :
    strToLower "ai workshop" = strToLower evAW.title ∧
    (add_event "ai workshop" "Copy" "2025-01-10" "Tech Hall" "aw2" [evAW]).1 =
      [evAW, ⟨"ai workshop", "Copy", "2025-01-10", "Tech Hall", "aw2"⟩] ∧
    (add_event "ai workshop" "Copy" "2025-01-10" "Tech Hall" "aw2" [evAW]).1.length ≠
      ([evAW] : List Event).length := by
  refine ⟨by decide, by decide, by decide⟩

/-- C3 (amended): add never checks for duplicates: whenever the five
required fields are nonempty, the new event is appended as-is, the count
grows by one, and the previously stored events — a same-named one
included — are left in place, not overwritten. -/
theorem add_event_appends (store : List Event) (t d dt v u : String)
    (ht : t ≠ "") (hd : d ≠ "") (hdt : dt ≠ "") (hv : v ≠ "") (hu : u ≠ "") :
    add_event t d dt v u store = (store ++ [⟨t, d, dt, v, u⟩], AddOutcome.added) ∧
    (add_event t d dt v u store).1.length = store.length + 1 := by
  have hcase : ¬ (t = "" ∨ d = "" ∨ dt = "" ∨ v = "" ∨ u = "") := by tauto
  constructor
  · simp [add_event, hcase]
  · simp [add_event, hcase]

/-- Witness for add_event_appends: the duplicate-name add from the
counterexample scenario indeed appends. -/
theorem add_event_appends_witness :
    add_event "ai workshop" "Copy" "2025-01-10" "Tech Hall" "aw2" [evAW] =
      ([evAW, ⟨"ai workshop", "Copy", "2025-01-10", "Tech Hall", "aw2"⟩],
       AddOutcome.added) :=
  ((add_event_appends [evAW] "ai workshop" "Copy" "2025-01-10" "Tech Hall" "aw2"
    (by decide) (by decide) (by decide) (by decide) (by decide)).1).trans (by decide)

/-- C7: edit with a valid positional index overwrites all five fields of
the event at that index, keeps the length and every other index
unchanged; an out-of-range index yields the not-found signal and mutates
nothing. -/
theorem edit_event_spec (store : List Event) (index j : Nat) (t d dt v u : String) :
    (index < store.length →
       edit_event index t d dt v u store =
         (store.set index ⟨t, d, dt, v, u⟩, EditOutcome.ok) ∧
       (edit_event index t d dt v u store).1.length = store.length ∧
       (edit_event index t d dt v u store).1.getD index default =
         (⟨t, d, dt, v, u⟩ : Event) ∧
       (j ≠ index →
          (edit_event index t d dt v u store).1.getD j default =
            store.getD j default)) ∧
    (store.length ≤ index →
       edit_event index t d dt v u store = (store, EditOutcome.notFound)) := by
  constructor
  · intro h
    have heq : edit_event index t d dt v u store =
        (store.set index ⟨t, d, dt, v, u⟩, EditOutcome.ok) := by
      simp [edit_event, h]
    refine ⟨heq, ?_, ?_, ?_⟩
    · rw [heq]; simp
    · rw [heq]
      simp [List.getD_eq_getElem?_getD, List.getElem?_set_self, h]
    · intro hj
      rw [heq]
      simp [List.getD_eq_getElem?_getD, List.getElem?_set_ne (fun hh => hj hh.symm)]
  · intro h
    have hnot : ¬ index < store.length := by omega
    simp [edit_event, hnot]

/-- Witness for edit_event_spec: rewriting index 0 of a two-event store,
checking the frame at index 1, and a not-found case at index 9. -/
theorem edit_event_spec_witness :
    edit_event 0 "Music Night" "Live bands" "2025-01-20" "Auditorium" "mx"
        [evAW, evAF] = ([evMX, evAF], EditOutcome.ok) ∧
    (edit_event 0 "Music Night" "Live bands" "2025-01-20" "Auditorium" "mx"
        [evAW, evAF]).1.getD 1 default = evAF ∧
    edit_event 9 "x" "x" "x" "x" "x" [evAW, evAF] =
      ([evAW, evAF], EditOutcome.notFound) :=
  ⟨(((edit_event_spec [evAW, evAF] 0 1 "Music Night" "Live bands" "2025-01-20"
      "Auditorium" "mx").1 (by decide)).1).trans (by decide),
   ((edit_event_spec [evAW, evAF] 0 1 "Music Night" "Live bands" "2025-01-20"
      "Auditorium" "mx").1 (by decide)).2.2.2 (by decide),
   (edit_event_spec [evAW, evAF] 9 0 "x" "x" "x" "x" "x").2 (by decide)⟩

/-- C2: the upcoming filter is exactly List.filter of the window
predicate: it keeps precisely the events whose date parses to an ordinal
in the inclusive window [today, today + windowDays], in input order, and
totally skips (rather than failing on) events whose date does not
parse. -/
theorem filterUpcoming_eq_filter (events : List Event) (today w : Nat) :
    filterUpcoming events today w = events.filter (eventInWindow today w) := by
  induction events with
  | nil => rfl
  | cons e rest ih =>
    simp only [filterUpcoming, List.filter_cons]
    cases hp : parse_date e.date with
    | some dd =>
      by_cases hw : today ≤ dd.toOrd ∧ dd.toOrd ≤ today + w
      · simp [eventInWindow, hp, hw.1, hw.2, ih, if_pos hw]
      · have hf : eventInWindow today w e = false := by
          simp [eventInWindow, hp]
          omega
        simp [hw, hf, ih]
    | none =>
      have : eventInWindow today w e = false := by simp [eventInWindow, hp]
      simp [this, ih]

/-- C9: the keyword assistant lower-cases the message and returns the
canned response of the first keyword group (in the fixed source order)
with a matching substring, the generic fallback when none matches; in
particular any message containing "admin" resolves to the first group
regardless of which other groups also match. -/
theorem get_chatbot_response_spec (message : String) :
    get_chatbot_response message = respondSpec message ∧
    (strContains (strToLower message) "admin" = true →
       get_chatbot_response message = adminResponse) := by
  constructor
  · unfold get_chatbot_response respondSpec
    simp only [chatGroups]
    set m := strToLower message with hm
    by_cases h1 : (strContains m "admin" || strContains m "login" || strContains m "credentials") = true
    · rw [if_pos h1, List.find?_cons_of_pos]
      simp only [List.any_cons, List.any_nil, Bool.or_false]
      rw [Bool.or_assoc] at h1
      exact h1
    · rw [if_neg h1, List.find?_cons_of_neg]
      swap
      · simp only [List.any_cons, List.any_nil, Bool.or_false]
        rw [Bool.or_assoc] at h1
        exact h1
      by_cases h2 : (strContains m "upcoming" || strContains m "next 7 days" || strContains m "filter") = true
      · rw [if_pos h2, List.find?_cons_of_pos]
        simp only [List.any_cons, List.any_nil, Bool.or_false]
        rw [Bool.or_assoc] at h2
        exact h2
      · rw [if_neg h2, List.find?_cons_of_neg]
        swap
        · simp only [List.any_cons, List.any_nil, Bool.or_false]
          rw [Bool.or_assoc] at h2
          exact h2
        by_cases h3 : (strContains m "recommendation" || strContains m "search" || strContains m "event" || strContains m "interested") = true
        · rw [if_pos h3, List.find?_cons_of_pos]
          simp only [List.any_cons, List.any_nil, Bool.or_false]
          rw [Bool.or_assoc, Bool.or_assoc] at h3
          exact h3
        · rw [if_neg h3, List.find?_cons_of_neg]
          swap
          · simp only [List.any_cons, List.any_nil, Bool.or_false]
            rw [Bool.or_assoc, Bool.or_assoc] at h3
            exact h3
          by_cases h4 : (strContains m "hello" || strContains m "hi" || strContains m "hey") = true
          · rw [if_pos h4, List.find?_cons_of_pos]
            simp only [List.any_cons, List.any_nil, Bool.or_false]
            rw [Bool.or_assoc] at h4
            exact h4
          · rw [if_neg h4, List.find?_cons_of_neg]
            swap
            · simp only [List.any_cons, List.any_nil, Bool.or_false]
              rw [Bool.or_assoc] at h4
              exact h4
            rfl
  · intro h
    unfold get_chatbot_response
    simp [h]

/-- Witness for get_chatbot_response_spec at a message matching the
admin, event and greeting groups at once: the admin group, checked
first, wins. -/
theorem get_chatbot_response_spec_witness :
    get_chatbot_response "Hello, which EVENT needs admin login?" = adminResponse :=
  (get_chatbot_response_spec "Hello, which EVENT needs admin login?").2 (by decide)

/-- Looking a key up in a record is insensitive to the order of the
fields, provided the keys are distinct. -/
theorem getField_perm (k : String) :
    ∀ {r₁ r₂ : EventRecord}, List.Perm r₁ r₂ → (r₁.map Prod.fst).Nodup →
      getField k r₁ = getField k r₂ := by
  intro r₁ r₂ p
  induction p with
  | nil => intro _; rfl
  | cons x p ih =>
    intro nd
    simp only [List.map_cons, List.nodup_cons] at nd
    obtain ⟨kx, vx⟩ := x
    simp only [getField]
    by_cases h : kx = k
    · simp [h]
    · simp only [h, if_false]
      exact ih nd.2
  | swap x y l =>
    intro nd
    obtain ⟨kx, vx⟩ := x
    obtain ⟨ky, vy⟩ := y
    simp only [List.map_cons, List.nodup_cons, List.mem_cons] at nd
    have hne : ky ≠ kx := fun h => nd.1 (Or.inl h)
    simp only [getField]
    by_cases hy : ky = k <;> by_cases hx : kx = k
    · exact absurd (hy.trans hx.symm) hne
    · simp [hy, hx]
    · simp [hy, hx]
    · simp [hy, hx]
  | trans p₁ p₂ ih₁ ih₂ =>
    intro nd
    exact (ih₁ nd).trans (ih₂ ((p₁.map Prod.fst).nodup nd))

/-- Reading a serialized event back through its keys recovers the event,
whatever order the serialized form listed the fields in. -/
theorem decodeEvent_perm (e : Event) (r : EventRecord)
    (p : List.Perm (encodeEvent e) r) : decodeEvent r = e := by
  have nd : ((encodeEvent e).map Prod.fst).Nodup := by
    simp [encodeEvent]
  have h : ∀ k, getField k (encodeEvent e) = getField k r :=
    fun k => getField_perm k p nd
  cases e with
  | mk t d dt v u =>
    simp only [decodeEvent, ← h]
    simp [encodeEvent, getField]

/-- C8: save then load round-trips: loading any file whose records are
per-record reorderings of the saved serialized events and reading each
field back by key reproduces exactly the saved event list (the direct
round trip is the reflexive-permutation instance). -/
theorem save_load_round_trip (l : List Event) (recs : List EventRecord)
    (h : List.Forall₂ (fun enc rec => List.Perm enc rec) (save_events l) recs) :
    (load_events (some (some recs))).map decodeEvent = l := by
  simp only [load_events]
  rw [save_events, List.forall₂_map_left_iff] at h
  induction h with
  | nil => rfl
  | cons he hrest ih =>
    simp only [List.map_cons, ih]
    rw [decodeEvent_perm _ _ he]

/-- A field-reordered serialization of evAW. -/
def recAWShuffled : EventRecord :=
  [("date", "2025-01-10"), ("url", "aw"), ("title", "AI Workshop"),
   ("venue", "Tech Hall"), ("description", "Hands-on machine learning")]

/-- Witness for save_load_round_trip: a concrete saved store read back
from a field-reordered file. -/
theorem save_load_round_trip_witness :
    (load_events (some (some [recAWShuffled]))).map decodeEvent = [evAW] :=
  save_load_round_trip [evAW] [recAWShuffled]
    (List.Forall₂.cons (by decide) List.Forall₂.nil)

instance (sim : List ℚ) : IsTotal Nat (ascLe sim) := ⟨by
  intro i j
  rcases lt_trichotomy (simKey sim i) (simKey sim j) with h | h | h
  · exact Or.inl (Or.inl h)
  · rcases le_total i j with hij | hji
    · exact Or.inl (Or.inr ⟨h, hij⟩)
    · exact Or.inr (Or.inr ⟨h.symm, hji⟩)
  · exact Or.inr (Or.inl h)⟩

instance (sim : List ℚ) : IsTrans Nat (ascLe sim) := ⟨by
  intro a b c hab hbc
  rcases hab with h1 | ⟨h1, hab⟩ <;> rcases hbc with h2 | ⟨h2, hbc⟩
  · exact Or.inl (h1.trans h2)
  · exact Or.inl (by rw [← h2]; exact h1)
  · exact Or.inl (by rw [h1]; exact h2)
  · exact Or.inr ⟨h1.trans h2, le_trans hab hbc⟩⟩

/-- The collection loop equals: filter the ranked indices to the
positively scored ones, take the first top_n of them, and look the
events up. -/
theorem selectLoop_eq (events : List Event) (sim : List ℚ) (topn : Nat) :
    ∀ (l : List Nat) (acc : List Event), acc.length ≤ topn →
      selectLoop events sim topn l acc =
        acc ++ ((l.filter (fun i => decide (0 < sim.getD i 0))).take
          (topn - acc.length)).map (fun i => events.getD i default) := by
  intro l
  induction l with
  | nil => intro acc h; simp [selectLoop]
  | cons i rest ih =>
    intro acc h
    by_cases hpos : 0 < sim.getD i 0
    · by_cases hlen : acc.length < topn
      · rw [selectLoop, if_pos ⟨hpos, hlen⟩]
        rw [ih (acc ++ [events.getD i default]) (by simp; omega)]
        rw [List.filter_cons_of_pos (by simpa using hpos)]
        have hk : topn - acc.length = (topn - (acc ++ [events.getD i default]).length) + 1 := by
          simp
          omega
        rw [hk, List.take_succ_cons]
        simp
      · rw [selectLoop, if_neg (fun hc => hlen hc.2), if_pos (by omega)]
        have hz : topn - acc.length = 0 := by omega
        simp [hz]
    · by_cases hlen2 : topn ≤ acc.length
      · rw [selectLoop, if_neg (fun hc => hpos hc.1), if_pos hlen2]
        have hz : topn - acc.length = 0 := by omega
        simp [hz]
      · rw [selectLoop, if_neg (fun hc => hpos hc.1), if_neg hlen2]
        rw [ih acc h, List.filter_cons_of_neg (by simpa using hpos)]

/-- C1 (amended): for every event list, score vector, top-N limit and
every index order the external argsort may return (numpy documents only
that .argsort() yields a permutation of 0..n-1 with weakly ascending
values — no tie order), the recommender returns at most topn events,
each a listed event of strictly positive score, in weakly descending
score order; and the concrete recommend_events_simple is exactly this
pipeline at the insertion-sort order (the small-array regime).  No tie
order is asserted: the program does not guarantee one. -/
theorem recommend_events_simple_spec (events : List Event) (sim : List ℚ) (topn : Nat)
    (order : List Nat)
    (hperm : List.Perm order (List.range events.length))
    (hsort : order.Pairwise (fun i j => sim.getD i 0 ≤ sim.getD j 0)) :
    (∃ idxs : List Nat,
      recommend_with_order events sim topn order =
        idxs.map (fun i => events.getD i default) ∧
      idxs.length ≤ topn ∧
      (∀ i ∈ idxs, i < events.length ∧ 0 < sim.getD i 0) ∧
      idxs.Pairwise (fun i j => sim.getD j 0 ≤ sim.getD i 0)) ∧
    recommend_events_simple events sim topn =
      recommend_with_order events sim topn
        (List.insertionSort (ascLe sim) (List.range events.length)) := by
  constructor
  · by_cases he : events.isEmpty
    · exact ⟨[], by simp [recommend_with_order, he], by simp, by simp, by simp⟩
    · refine ⟨((order.reverse).filter (fun i => decide (0 < sim.getD i 0))).take topn,
        ?_, ?_, ?_, ?_⟩
      · rw [recommend_with_order, if_neg (by simpa using he)]
        rw [selectLoop_eq events sim topn order.reverse [] (by simp)]
        simp
      · exact List.length_take_le _ _
      · intro i hi
        have h1 := List.mem_of_mem_take hi
        have h2 := List.mem_filter.mp h1
        have h3 : i < events.length := by
          have hh := List.mem_reverse.mp h2.1
          have := hperm.mem_iff.mp hh
          simpa [List.mem_range] using this
        exact ⟨h3, by simpa using h2.2⟩
      · have hdesc : List.Pairwise (fun i j => sim.getD j 0 ≤ sim.getD i 0) order.reverse :=
          List.pairwise_reverse.mpr hsort
        exact List.Pairwise.sublist (List.take_sublist _ _) (hdesc.filter _)
  · rfl

/-- Witness for recommend_events_simple_spec at a concrete two-event
store, ascending scores and the order numpy returns for them. -/
theorem recommend_events_simple_spec_witness :
    (∃ idxs : List Nat,
      recommend_with_order [evAW, evAF] [(1 : ℚ), 2] 1 [0, 1] =
        idxs.map (fun i => ([evAW, evAF] : List Event).getD i default) ∧
      idxs.length ≤ 1 ∧
      (∀ i ∈ idxs, i < ([evAW, evAF] : List Event).length ∧
        0 < ([(1 : ℚ), 2] : List ℚ).getD i 0) ∧
      idxs.Pairwise (fun i j => ([(1 : ℚ), 2] : List ℚ).getD j 0 ≤
        ([(1 : ℚ), 2] : List ℚ).getD i 0)) ∧
    recommend_events_simple [evAW, evAF] [(1 : ℚ), 2] 1 =
      recommend_with_order [evAW, evAF] [(1 : ℚ), 2] 1
        (List.insertionSort (ascLe [(1 : ℚ), 2]) (List.range 2)) :=
  recommend_events_simple_spec [evAW, evAF] [1, 2] 1 [0, 1] (by decide) (by decide)

/-- C1 counterexample: two events with the same text get the same
positive cosine score; the stated claim then demands input order
[evAW, evAF] on the tie.  At n = 2 numpy argsort runs its insertion
sort (stable), so the program returns the reversed order [evAF, evAW],
refuting the first-seen-first tie-break. -/
theorem recommend_tie_order_cex :
    recommend_events_simple [evAW, evAF] [1, 1] 3 = [evAF, evAW] ∧
    ([evAF, evAW] : List Event) ≠ [evAW, evAF] := by
  constructor
  · decide
  · decide
